import Mathlib

/-!
Shallow embedding of the score-aggregation engine of the ppt-Evaluator
repository (`evaluator/scoring_system.py` together with the weight table of
`config.py`), and proofs about it.

Python values flowing through the engine are modelled by the inductive type
`RawValue`; Python dicts are modelled as association lists in insertion
order; Python floats are modelled as rationals; a Python exception inside a
`try` block is modelled by `Option`/`none` at the point where the
corresponding helper can fail.
-/

namespace ScoringSystem

/-- A Python value as seen by the scoring engine:
* `num x` — an `int`, `float` or `bool` (Python `bool` is a numeric type);
* `strlist l` — a list of strings (the shape of `recommendations` values);
* `dict fields` — a dict with string keys, in insertion order;
* `truthyOther` — a truthy value that is none of the above, on which both
  `float(...)` and `len(...)` raise;
* `falsyOther` — a falsy value that is none of the above (e.g. `None`, `""`),
  on which `float(...)` raises but which short-circuits truthiness tests. -/
inductive RawValue where
  | num (x : ℚ)
  | strlist (l : List String)
  | dict (fields : List (String × RawValue))
  | truthyOther
  | falsyOther

/-- A Python dict with string keys, in insertion order. -/
abbrev PyDict := List (String × RawValue)

/-- Python `d.get(k, dflt)`. -/
def dictGetD (d : PyDict) (k : String) (dflt : RawValue) : RawValue :=
  match d.find? (fun p => p.1 == k) with
  | some p => p.2
  | none => dflt

/-- Python `d[k] = v`: replace the value at the first (only) occurrence of
`k` in place, or append `(k, v)` when `k` is absent — exactly the observable
behaviour of assignment into an insertion-ordered dict. -/
def dictSet (d : PyDict) (k : String) (v : RawValue) : PyDict :=
  match d with
  | [] => [(k, v)]
  | p :: ps => if p.1 == k then (k, v) :: ps else p :: dictSet ps k v

/-- Python `k in d`. -/
def hasKey (d : PyDict) (k : String) : Bool :=
  d.any (fun p => p.1 == k)

/-- Python truthiness of a `RawValue`. -/
def truthy : RawValue → Bool
  | .num x => decide (x ≠ 0)
  | .strlist l => !l.isEmpty
  | .dict fields => !fields.isEmpty
  | .truthyOther => true
  | .falsyOther => false

/-- The numeric content of a `RawValue`, when it is a number. -/
def asNumQ : RawValue → Option ℚ
  | .num x => some x
  | _ => none

/-- Whether a `RawValue` is a dict (Python `isinstance(v, dict)`). -/
def RawValue.isDict : RawValue → Bool
  | .dict _ => true
  | _ => false

/-- `Config.SCORING_WEIGHTS` from `config.py`. -/
def SCORING_WEIGHTS : List (String × ℚ) :=
  [("ps_similarity", 1/4),
   ("feasibility", 1/5),
   ("attractiveness", 3/20),
   ("image_analysis", 3/20),
   ("link_analysis", 1/10),
   ("llm_penalty", -3/20)]

/-- Python `self.weights.get(component, 0.0)`. -/
def weightsGet (weights : List (String × ℚ)) (c : String) : ℚ :=
  match weights.find? (fun p => p.1 == c) with
  | some p => p.2
  | none => 0

/-- The `self.thresholds` dict built in `ScoringSystem.__init__`. -/
def thresholds : List (String × ℚ) :=
  [("excellent", 9/10),
   ("very_good", 8/10),
   ("good", 7/10),
   ("satisfactory", 6/10),
   ("needs_improvement", 4/10),
   ("poor", 0)]

/-- Python `self.thresholds[key]` (all keys used by the engine are present). -/
def thresholdsGet (k : String) : ℚ :=
  match thresholds.find? (fun p => p.1 == k) with
  | some p => p.2
  | none => 0

/-- Lookup with default in a rational-valued dict
(Python `weighted_scores.get(component, 0.0)`). -/
def listGetD (l : List (String × ℚ)) (k : String) (d : ℚ) : ℚ :=
  match l.find? (fun p => p.1 == k) with
  | some p => p.2
  | none => d

/-- One non-penalty branch of `_extract_component_scores`: given the raw value
stored under a component key and the name of its "overall" sub-field, produce
the value the Python code would leave in `component_scores`, or `none` when
the Python code would raise (either `float(...)` on a truthy non-numeric bare
value, or the final clamp loop `max(0.0, min(score, 1.0))` on a non-numeric
value read out of a nested dict). -/
def extractValue (v : RawValue) (overallField : String) : Option ℚ :=
  match v with
  | .dict fields =>
      match dictGetD fields overallField (.num 0) with
      | .num x => some x
      | _ => none
  | .num x => some x
  | .strlist l => if l.isEmpty then some 0 else none
  | .truthyOther => none
  | .falsyOther => some 0

/-- The `llm_detection` branch of `_extract_component_scores`: a non-dict
value yields `0.0` outright (there is no `float(...)` fallback for this
component); a dict contributes its `overall_llm_probability` field, with the
same clamp-loop failure mode as the other components. -/
def extractPenalty (v : RawValue) : Option ℚ :=
  match v with
  | .dict fields =>
      match dictGetD fields "overall_llm_probability" (.num 0) with
      | .num x => some x
      | _ => none
  | _ => some 0

/-- The six per-component extraction attempts of `_extract_component_scores`,
in source order, before the clamp loop. -/
def extractAttempts (results : PyDict) : List (String × Option ℚ) :=
  [("ps_similarity",
      extractValue (dictGetD results "ps_similarity" (.dict [])) "overall_similarity"),
   ("feasibility",
      extractValue (dictGetD results "feasibility" (.dict [])) "overall_feasibility"),
   ("attractiveness",
      extractValue (dictGetD results "attractiveness" (.dict [])) "overall_attractiveness"),
   ("image_analysis",
      extractValue (dictGetD results "image_analysis" (.dict [])) "overall_image_score"),
   ("link_analysis",
      extractValue (dictGetD results "link_analysis" (.dict [])) "link_quality_score"),
   ("llm_penalty",
      extractPenalty (dictGetD results "llm_detection" (.dict [])))]

/-- The all-zero fallback installed by the `except` clause of
`_extract_component_scores`. -/
def defaultComponentScores : List (String × ℚ) :=
  [("ps_similarity", 0),
   ("feasibility", 0),
   ("attractiveness", 0),
   ("image_analysis", 0),
   ("link_analysis", 0),
   ("llm_penalty", 0)]

/-- `_extract_component_scores`: the whole body sits in one `try`; if any
component extraction (or the clamp loop) raises, the entire dict is replaced
by `defaultComponentScores`; otherwise every extracted value is clamped to
`[0, 1]`. -/
def extract_component_scores (results : PyDict) : List (String × ℚ) :=
  if (extractAttempts results).all (fun p => p.2.isSome) then
    (extractAttempts results).map (fun p => (p.1, max 0 (min (p.2.getD 0) 1)))
  else
    defaultComponentScores

/-- `_calculate_weighted_scores`: both branches of the source's
`if component == 'llm_penalty'` compute `score * weight`. -/
def calculate_weighted_scores (componentScores : List (String × ℚ)) : List (String × ℚ) :=
  componentScores.map (fun p =>
    let weight := weightsGet SCORING_WEIGHTS p.1
    if p.1 == "llm_penalty" then (p.1, p.2 * weight) else (p.1, p.2 * weight))

/-- `_assign_grade`. -/
def assign_grade (normalizedScore : ℚ) : String :=
  if normalizedScore ≥ thresholdsGet "excellent" then "A+"
  else if normalizedScore ≥ thresholdsGet "very_good" then "A"
  else if normalizedScore ≥ thresholdsGet "good" then "B+"
  else if normalizedScore ≥ thresholdsGet "satisfactory" then "B"
  else if normalizedScore ≥ thresholdsGet "needs_improvement" then "C"
  else "D"

/-- Per-component entry of the `score_breakdown`. -/
structure ComponentBreakdown where
  raw_score : ℚ
  weight : ℚ
  weighted_score : ℚ
  percentage : ℚ
  contribution : ℚ

/-- The `score_breakdown` dict of `_create_score_breakdown`. -/
structure ScoreBreakdown where
  components : List (String × ComponentBreakdown)
  total_possible : ℚ
  total_achieved : ℚ
  penalty_applied : ℚ

/-- `_create_score_breakdown`. -/
def create_score_breakdown (componentScores weightedScores : List (String × ℚ)) :
    ScoreBreakdown :=
  let sumAbs := (weightedScores.map (fun p => |p.2|)).sum
  { components := componentScores.map (fun p =>
      let weight := weightsGet SCORING_WEIGHTS p.1
      let weightedScore := listGetD weightedScores p.1 0
      (p.1,
        { raw_score := p.2
          weight := weight
          weighted_score := weightedScore
          percentage := p.2 * 100
          contribution := if sumAbs > 0 then |weightedScore| / sumAbs * 100 else 0 }))
    total_possible := 1
    total_achieved := ((weightedScores.filter (fun p => p.2 > 0)).map (fun p => p.2)).sum
    penalty_applied := |listGetD weightedScores "llm_penalty" 0| }

/-- The `component_names` display-name dict of `_identify_strengths_weaknesses`. -/
def componentNames : List (String × String) :=
  [("ps_similarity", "Problem Statement Alignment"),
   ("feasibility", "Project Feasibility"),
   ("attractiveness", "Presentation Design"),
   ("image_analysis", "Visual Content Quality"),
   ("link_analysis", "Supporting Links"),
   ("llm_penalty", "Content Originality")]

/-- Python `component_names.get(component, component)`. -/
def componentDisplayName (c : String) : String :=
  match componentNames.find? (fun p => p.1 == c) with
  | some p => p.2
  | none => c

/-- `_identify_strengths_weaknesses`. -/
def identify_strengths_weaknesses (componentScores : List (String × ℚ)) :
    List String × List String :=
  componentScores.foldl (fun acc p =>
    let name := componentDisplayName p.1
    if p.1 == "llm_penalty" then
      if p.2 < 3/10 then
        (acc.1 ++ ["High content originality (" ++ name ++ ")"], acc.2)
      else if p.2 > 7/10 then
        (acc.1, acc.2 ++ ["Potential AI-generated content (" ++ name ++ ")"])
      else acc
    else
      if p.2 ≥ 8/10 then (acc.1 ++ ["Excellent " ++ name.toLower], acc.2)
      else if p.2 ≥ 6/10 then (acc.1 ++ ["Good " ++ name.toLower], acc.2)
      else if p.2 < 4/10 then (acc.1, acc.2 ++ ["Poor " ++ name.toLower])
      else acc)
    ([], [])

/-- `_generate_overall_assessment`. -/
def generate_overall_assessment (normalizedScore : ℚ)
    (strengths weaknesses : List String) : String :=
  let assessment :=
    if normalizedScore ≥ thresholdsGet "excellent" then
      "Outstanding presentation with excellent execution across all criteria."
    else if normalizedScore ≥ thresholdsGet "very_good" then
      "Very strong presentation with high-quality content and implementation."
    else if normalizedScore ≥ thresholdsGet "good" then
      "Good presentation with solid foundation and clear potential."
    else if normalizedScore ≥ thresholdsGet "satisfactory" then
      "Satisfactory presentation meeting basic requirements with room for improvement."
    else if normalizedScore ≥ thresholdsGet "needs_improvement" then
      "Presentation needs significant improvement in multiple areas."
    else
      "Presentation requires major revision across most evaluation criteria."
  let assessment :=
    if strengths.length > 2 then
      assessment ++ " The presentation demonstrates multiple strong points."
    else assessment
  if weaknesses.length > 2 then
    assessment ++ " Several areas need attention for improvement."
  else assessment

/-- The defaults dict set up at the top of `_calculate_ranking_factors`. -/
def rankingFactorsInit : PyDict :=
  [("innovation_score", .num 0),
   ("technical_depth", .num 0),
   ("implementation_readiness", .num 0),
   ("presentation_quality", .num 0),
   ("solution_completeness", .num 0)]

/-- Innovation step of `_calculate_ranking_factors`: `(technical_feasibility +
scalability_score) / 2`; `none` models the `TypeError` raised by the addition
or division when a sub-metric is not numeric. -/
def rfInnovationStep (feasibility : RawValue) (rf : PyDict) : Option PyDict :=
  match feasibility with
  | .dict f =>
      match asNumQ (dictGetD f "technical_feasibility" (.num 0)),
            asNumQ (dictGetD f "scalability_score" (.num 0)) with
      | some t, some s => some (dictSet rf "innovation_score" (.num ((t + s) / 2)))
      | _, _ => none
  | _ => some rf

/-- Technical-depth step: the sub-metric is stored without any arithmetic, so
this step never raises (a non-numeric value is stored as-is). -/
def rfTechnicalDepthStep (imageAnalysis : RawValue) (rf : PyDict) : Option PyDict :=
  match imageAnalysis with
  | .dict f => some (dictSet rf "technical_depth" (dictGetD f "technical_depth_score" (.num 0)))
  | _ => some rf

/-- Implementation-readiness step: `(resource_feasibility +
timeline_feasibility) / 2`, failing like `rfInnovationStep`. -/
def rfImplementationStep (feasibility : RawValue) (rf : PyDict) : Option PyDict :=
  match feasibility with
  | .dict f =>
      match asNumQ (dictGetD f "resource_feasibility" (.num 0)),
            asNumQ (dictGetD f "timeline_feasibility" (.num 0)) with
      | some r, some t => some (dictSet rf "implementation_readiness" (.num ((r + t) / 2)))
      | _, _ => none
  | _ => some rf

/-- Presentation-quality step: stored without arithmetic, never raises. -/
def rfPresentationStep (attractiveness : RawValue) (rf : PyDict) : Option PyDict :=
  match attractiveness with
  | .dict f =>
      some (dictSet rf "presentation_quality" (dictGetD f "overall_attractiveness" (.num 0)))
  | _ => some rf

/-- Solution-completeness step: `(coverage_score + relevance_score) / 2`,
failing like `rfInnovationStep`. -/
def rfCompletenessStep (psSimilarity : RawValue) (rf : PyDict) : Option PyDict :=
  match psSimilarity with
  | .dict f =>
      match asNumQ (dictGetD f "coverage_score" (.num 0)),
            asNumQ (dictGetD f "relevance_score" (.num 0)) with
      | some c, some r => some (dictSet rf "solution_completeness" (.num ((c + r) / 2)))
      | _, _ => none
  | _ => some rf

/-- Run the ranking-factor steps in order; the body sits in one `try`, so the
first step that raises freezes the dict in its state at that point. -/
def runRfSteps (rf : PyDict) : List (PyDict → Option PyDict) → PyDict
  | [] => rf
  | f :: fs =>
      match f rf with
      | some rf2 => runRfSteps rf2 fs
      | none => rf

/-- `_calculate_ranking_factors`. -/
def calculate_ranking_factors (evaluationResults : PyDict) : PyDict :=
  runRfSteps rankingFactorsInit
    [rfInnovationStep (dictGetD evaluationResults "feasibility" (.dict [])),
     rfTechnicalDepthStep (dictGetD evaluationResults "image_analysis" (.dict [])),
     rfImplementationStep (dictGetD evaluationResults "feasibility" (.dict [])),
     rfPresentationStep (dictGetD evaluationResults "attractiveness" (.dict [])),
     rfCompletenessStep (dictGetD evaluationResults "ps_similarity" (.dict []))]

/-- Components inspected by the recommendation-harvest loop of
`_generate_final_recommendations`, in source order. -/
def recComponents : List String :=
  ["ps_similarity", "feasibility", "attractiveness", "image_analysis", "link_analysis"]

/-- One iteration of the harvest loop: when the component's raw value is a
dict containing a `recommendations` key, the stored value is tested for
truthiness and (when truthy) `len(...)` and `[0]` are applied to it; `none`
models the exception those raise on a truthy non-list value. -/
def harvestRecommendation (v : RawValue) : Option (List String) :=
  match v with
  | .dict fields =>
      if fields.any (fun p => p.1 == "recommendations") then
        match dictGetD fields "recommendations" (.dict []) with
        | .strlist [] => some []
        | .strlist (s :: _) => some ["• " ++ s]
        | .num x => if x = 0 then some [] else none
        | .dict [] => some []
        | .dict (_ :: _) => none
        | .truthyOther => none
        | .falsyOther => some []
      else some []
  | _ => some []

/-- `_generate_final_recommendations`: the whole body sits in one `try`; an
exception in the harvest loop replaces the list wholesale with the one-line
fallback; `[:10]` applies to the result either way. -/
def generate_final_recommendations (evaluationResults : PyDict)
    (strengths weaknesses : List String) : List String :=
  let harvested : Option (List String) :=
    recComponents.foldl (fun acc c =>
      match acc with
      | none => none
      | some l =>
          match harvestRecommendation (dictGetD evaluationResults c (.dict [])) with
          | none => none
          | some l2 => some (l ++ l2)) (some [])
  (match harvested with
   | none => ["Review all evaluation components for improvement opportunities"]
   | some compRecs =>
      let recs :=
        (if weaknesses.length > 0 then
          "Priority Improvements:" :: (weaknesses.take 3).map (fun w => "• Address " ++ w)
        else []) ++ compRecs
      let recs := recs ++
        (if strengths.length > 2 then
          ["Leverage your strong points to further enhance the presentation"]
        else [])
      let recs := recs ++
        (match dictGetD evaluationResults "llm_detection" (.dict []) with
         | .dict fields =>
            if truthy (dictGetD fields "is_likely_llm_generated" .falsyOther) then
              ["• Review content for originality and add personal insights"]
            else []
         | _ => [])
      if recs.length = 0 then
        ["Continue refining technical details",
         "Enhance visual presentation quality",
         "Strengthen problem-solution alignment"]
      else recs).take 10

/-- The record returned by `calculate_final_score`. -/
structure FinalScoreRecord where
  total_score : ℚ
  normalized_score : ℚ
  percentage_score : ℚ
  grade : String
  component_scores : List (String × ℚ)
  weighted_scores : List (String × ℚ)
  score_breakdown : ScoreBreakdown
  strengths : List String
  weaknesses : List String
  overall_assessment : String
  ranking_factors : PyDict
  recommendations : List String

/-- `calculate_final_score`: the try-block always completes in the modelled
domain (every helper handles its own failures), so the record is always fully
populated. -/
def calculate_final_score (evaluationResults : PyDict) : FinalScoreRecord :=
  let componentScores := extract_component_scores evaluationResults
  let weightedScores := calculate_weighted_scores componentScores
  let totalScore := (weightedScores.map (fun p => p.2)).sum
  let normalizedScore := max 0 (min totalScore 1)
  let sw := identify_strengths_weaknesses componentScores
  { total_score := totalScore
    normalized_score := normalizedScore
    percentage_score := normalizedScore * 100
    grade := assign_grade normalizedScore
    component_scores := componentScores
    weighted_scores := weightedScores
    score_breakdown := create_score_breakdown componentScores weightedScores
    strengths := sw.1
    weaknesses := sw.2
    overall_assessment := generate_overall_assessment normalizedScore sw.1 sw.2
    ranking_factors := calculate_ranking_factors evaluationResults
    recommendations := generate_final_recommendations evaluationResults sw.1 sw.2 }

/-- The fixed `ranking_weights` dict of `_calculate_ranking_score`. -/
def RANKING_WEIGHTS : List (String × ℚ) :=
  [("innovation_score", 1/4),
   ("technical_depth", 1/4),
   ("implementation_readiness", 1/5),
   ("presentation_quality", 3/20),
   ("solution_completeness", 3/20)]

/-- `_calculate_ranking_score`: a presentation is a dict embedding its
`final_score` record; any exception inside the body (non-dict
`ranking_factors`, non-numeric factor or `normalized_score`) is caught and
yields `0.0`. -/
def calculate_ranking_score (presentation : PyDict) : ℚ :=
  match dictGetD presentation "final_score" (.dict []) with
  | .dict fs =>
      let attempt : Option ℚ := do
        let rf ← match dictGetD fs "ranking_factors" (.dict []) with
                 | .dict rf => some rf
                 | _ => none
        let terms ← RANKING_WEIGHTS.mapM (fun w =>
          (asNumQ (dictGetD rf w.1 (.num 0))).map (fun x => x * w.2))
        let base ← asNumQ (dictGetD fs "normalized_score" (.num 0))
        pure (min (base * (7/10) + terms.sum * (3/10)) 1)
      attempt.getD 0
  | _ => 0

/-- The sort key of `rank_presentations`:
`x.get('ranking_score', 0.0)` read back as a rational (after the assignment
loop the stored value is always numeric). -/
def rankKey (p : PyDict) : ℚ :=
  (asNumQ (dictGetD p "ranking_score" (.num 0))).getD 0

/-- The order used by `sorted(..., reverse=True)`: descending by `rankKey`;
Python's sort is stable, and so is `List.insertionSort` with this relation. -/
def rankLe (a b : PyDict) : Prop := rankKey b ≤ rankKey a

instance : DecidableRel rankLe := fun a b => inferInstanceAs (Decidable (rankKey b ≤ rankKey a))

instance : IsTotal PyDict rankLe := ⟨fun a b => le_total (rankKey b) (rankKey a)⟩

instance : IsTrans PyDict rankLe := ⟨fun _ _ _ h1 h2 => le_trans h2 h1⟩

/-- The rank-assignment loop
`for i, presentation in enumerate(ranked_presentations): presentation['rank'] = i + 1`,
started at index `i`. -/
def addRanks (i : ℕ) : List PyDict → List PyDict
  | [] => []
  | q :: qs => dictSet q "rank" (.num (i + 1)) :: addRanks (i + 1) qs

/-- `rank_presentations`: store a `ranking_score` in every presentation dict,
sort the dicts descending by that score (stably), then store a 1-based `rank`
by sorted position.  The elements of the returned list are the post-call
states of the input dicts themselves (Python mutates them in place). -/
def rank_presentations (presentations : List PyDict) : List PyDict :=
  addRanks 0 (List.insertionSort rankLe (presentations.map (fun p =>
    dictSet p "ranking_score" (.num (calculate_ranking_score p)))))

/-! ### Helper lemmas about the dict model -/

theorem dictSet_cons_of_eq (p : String × RawValue) (ps : PyDict) (k : String) (v : RawValue)
    (h : p.1 = k) : dictSet (p :: ps) k v = (k, v) :: ps := by
  simp [dictSet, h]

theorem dictSet_cons_of_ne (p : String × RawValue) (ps : PyDict) (k : String) (v : RawValue)
    (h : p.1 ≠ k) : dictSet (p :: ps) k v = p :: dictSet ps k v := by
  simp [dictSet, h]

theorem find?_dictSet_self (d : PyDict) (k : String) (v : RawValue) :
    (dictSet d k v).find? (fun p => p.1 == k) = some (k, v) := by
  induction d with
  | nil => exact List.find?_cons_of_pos _ (by simp)
  | cons p ps ih =>
      by_cases h : p.1 = k
      · rw [dictSet_cons_of_eq p ps k v h]
        exact List.find?_cons_of_pos _ (by simp)
      · rw [dictSet_cons_of_ne p ps k v h, List.find?_cons_of_neg _ (by simp [h]), ih]

theorem find?_dictSet_ne (d : PyDict) (k k2 : String) (v : RawValue) (hne : k2 ≠ k) :
    (dictSet d k v).find? (fun p => p.1 == k2) = d.find? (fun p => p.1 == k2) := by
  induction d with
  | nil =>
      show List.find? _ [(k, v)] = List.find? _ []
      rw [List.find?_cons_of_neg _ (by simp [Ne.symm hne]), List.find?_nil]
  | cons p ps ih =>
      by_cases h : p.1 = k
      · rw [dictSet_cons_of_eq p ps k v h,
          List.find?_cons_of_neg _ (by simp [Ne.symm hne]),
          List.find?_cons_of_neg _ (by simp [h, Ne.symm hne])]
      · by_cases h2 : p.1 = k2
        · rw [dictSet_cons_of_ne p ps k v h,
            List.find?_cons_of_pos _ (by simp [h2]),
            List.find?_cons_of_pos _ (by simp [h2])]
        · rw [dictSet_cons_of_ne p ps k v h,
            List.find?_cons_of_neg _ (by simp [h2]),
            List.find?_cons_of_neg _ (by simp [h2]), ih]

theorem dictGetD_dictSet_self (d : PyDict) (k : String) (v dflt : RawValue) :
    dictGetD (dictSet d k v) k dflt = v := by
  simp [dictGetD, find?_dictSet_self]

theorem dictGetD_dictSet_ne (d : PyDict) (k k2 : String) (v dflt : RawValue) (hne : k2 ≠ k) :
    dictGetD (dictSet d k v) k2 dflt = dictGetD d k2 dflt := by
  simp [dictGetD, find?_dictSet_ne d k k2 v hne]

theorem dictSet_eq_self (d : PyDict) (k : String) (v : RawValue)
    (h : d.find? (fun p => p.1 == k) = some (k, v)) : dictSet d k v = d := by
  induction d with
  | nil => simp at h
  | cons p ps ih =>
      by_cases hk : p.1 = k
      · rw [List.find?_cons_of_pos _ (by simp [hk])] at h
        have hp : p = (k, v) := Option.some.inj h
        rw [dictSet_cons_of_eq p ps k v hk, hp]
      · rw [List.find?_cons_of_neg _ (by simp [hk])] at h
        rw [dictSet_cons_of_ne p ps k v hk, ih h]

theorem rankKey_dictSet_rank (p : PyDict) (v : RawValue) :
    rankKey (dictSet p "rank" v) = rankKey p := by
  simp [rankKey, dictGetD_dictSet_ne p "rank" "ranking_score" v _ (by decide)]

/-! ### Helper lemmas about `addRanks` -/

theorem addRanks_length (i : ℕ) (l : List PyDict) : (addRanks i l).length = l.length := by
  induction l generalizing i with
  | nil => rfl
  | cons q qs ih => simp [addRanks, ih]

theorem addRanks_get (j : ℕ) (l : List PyDict) (i : ℕ) (h : i < (addRanks j l).length)
    (h2 : i < l.length) :
    (addRanks j l).get ⟨i, h⟩ = dictSet (l.get ⟨i, h2⟩) "rank" (.num (j + i + 1)) := by
  induction l generalizing i j with
  | nil => simp at h2
  | cons q qs ih =>
      cases i with
      | zero => simp [addRanks]
      | succ n =>
          simp only [addRanks, List.get_cons_succ]
          rw [ih (j + 1) n _ (by simpa using h2)]
          congr 2
          push_cast
          ring

theorem mem_addRanks (i : ℕ) (l : List PyDict) (q : PyDict) (h : q ∈ addRanks i l) :
    ∃ p ∈ l, ∃ r, q = dictSet p "rank" r := by
  induction l generalizing i with
  | nil => simp [addRanks] at h
  | cons p ps ih =>
      simp only [addRanks, List.mem_cons] at h
      rcases h with h | h
      · exact ⟨p, List.mem_cons_self _ _, .num (i + 1), h⟩
      · obtain ⟨p2, hp2, r, hr⟩ := ih (i + 1) h
        exact ⟨p2, List.mem_cons_of_mem _ hp2, r, hr⟩

theorem addRanks_map_rankKey (i : ℕ) (l : List PyDict) :
    (addRanks i l).map rankKey = l.map rankKey := by
  induction l generalizing i with
  | nil => rfl
  | cons q qs ih => simp [addRanks, rankKey_dictSet_rank, ih]

theorem addRanks_addRanks (i : ℕ) (l : List PyDict) :
    addRanks i (addRanks i l) = addRanks i l := by
  induction l generalizing i with
  | nil => rfl
  | cons q qs ih =>
      simp only [addRanks, List.cons.injEq]
      refine ⟨dictSet_eq_self _ _ _ (find?_dictSet_self _ _ _), ih (i + 1)⟩

/-! ### Shared lemmas about weighting and grading -/

theorem calculate_weighted_scores_eq_map (cs : List (String × ℚ)) :
    calculate_weighted_scores cs
      = cs.map (fun p => (p.1, p.2 * weightsGet SCORING_WEIGHTS p.1)) := by
  simp [calculate_weighted_scores]

theorem assign_grade_eval (s : ℚ) :
    assign_grade s =
      if s ≥ 9/10 then "A+"
      else if s ≥ 8/10 then "A"
      else if s ≥ 7/10 then "B+"
      else if s ≥ 6/10 then "B"
      else if s ≥ 4/10 then "C"
      else "D" := rfl

theorem weightsGet_ps_similarity : weightsGet SCORING_WEIGHTS "ps_similarity" = 1/4 := rfl

theorem weightsGet_feasibility : weightsGet SCORING_WEIGHTS "feasibility" = 1/5 := rfl

theorem weightsGet_attractiveness : weightsGet SCORING_WEIGHTS "attractiveness" = 3/20 := rfl

theorem weightsGet_image_analysis : weightsGet SCORING_WEIGHTS "image_analysis" = 3/20 := rfl

theorem weightsGet_link_analysis : weightsGet SCORING_WEIGHTS "link_analysis" = 1/10 := rfl

theorem weightsGet_llm_penalty : weightsGet SCORING_WEIGHTS "llm_penalty" = -3/20 := rfl

/-- Quality ordering of the grade bands used to state monotonicity
(best band = largest value). -/
def gradeRank (g : String) : ℕ :=
  if g = "A+" then 5
  else if g = "A" then 4
  else if g = "B+" then 3
  else if g = "B" then 2
  else if g = "C" then 1
  else 0

/-! ### C1 -/

/-- C1: for every evaluation-results input, the record returned by
`calculate_final_score` has `normalized_score` equal to `total_score` clamped
to `[0.0, 1.0]` (so `normalized_score` is always in `[0.0, 1.0]` inclusive)
and `percentage_score` equal to `normalized_score * 100`. -/
theorem normalized_score_clamped (results : PyDict) :
    (calculate_final_score results).normalized_score
        = max 0 (min (calculate_final_score results).total_score 1)
    ∧ 0 ≤ (calculate_final_score results).normalized_score
    ∧ (calculate_final_score results).normalized_score ≤ 1
    ∧ (calculate_final_score results).percentage_score
        = (calculate_final_score results).normalized_score * 100 :=
  ⟨rfl, le_max_left _ _, max_le (by norm_num) (min_le_right _ _), rfl⟩

/-! ### C2 -/

/-- C2: weighted scores are `raw * weight` with the weight looked up in the
fixed configuration (0.0 for unknown components); `total_score` is the sum of
the weighted scores; and the worked example
`{ps_similarity: 0.9, feasibility: 0.8, attractiveness: 0.7,
image_analysis: 0.6, link_analysis: 0.5, llm_penalty: 0.1}` yields
`total_score = 0.615 = 123/200` and grade `"B"`. -/
theorem weighted_scores_formula :
    (∀ cs : List (String × ℚ),
        calculate_weighted_scores cs
          = cs.map (fun p => (p.1, p.2 * weightsGet SCORING_WEIGHTS p.1)))
    ∧ (∀ c : String, (∀ w ∈ SCORING_WEIGHTS, w.1 ≠ c) → weightsGet SCORING_WEIGHTS c = 0)
    ∧ (∀ results : PyDict,
        (calculate_final_score results).total_score
          = ((calculate_weighted_scores (extract_component_scores results)).map
              (fun p => p.2)).sum)
    ∧ ((calculate_weighted_scores
          [("ps_similarity", (9:ℚ)/10), ("feasibility", 4/5), ("attractiveness", 7/10),
           ("image_analysis", 3/5), ("link_analysis", 1/2), ("llm_penalty", 1/10)]).map
          (fun p => p.2)).sum = 123/200
    ∧ assign_grade (max 0 (min (123/200) 1)) = "B" := by
  have hclamp : max (0:ℚ) (min (123/200) 1) = 123/200 := by
    norm_num [max_def, min_def]
  refine ⟨calculate_weighted_scores_eq_map, fun c h => ?_, fun results => rfl, ?_, ?_⟩
  · have : SCORING_WEIGHTS.find? (fun p => p.1 == c) = none :=
      List.find?_eq_none.mpr (fun w hw => by simp [h w hw])
    simp [weightsGet, this]
  · rw [calculate_weighted_scores_eq_map]
    simp only [List.map_cons, List.map_nil, List.sum_cons, List.sum_nil,
      weightsGet_ps_similarity, weightsGet_feasibility, weightsGet_attractiveness,
      weightsGet_image_analysis, weightsGet_link_analysis, weightsGet_llm_penalty]
    norm_num
  · rw [hclamp, assign_grade_eval]
    norm_num

theorem weighted_scores_formula_witness :
    weightsGet SCORING_WEIGHTS "unknown_component" = 0
    ∧ calculate_weighted_scores [("ps_similarity", (1:ℚ))]
        = [("ps_similarity", 1 * weightsGet SCORING_WEIGHTS "ps_similarity")] :=
  ⟨weighted_scores_formula.2.1 "unknown_component" (by decide),
   by rw [weighted_scores_formula.1]; rfl⟩

/-! ### C3 -/

/-- C3: grade assignment evaluates the fixed thresholds from highest to
lowest with first match winning, is total on `[0, 1]` (every score gets one
of the six grades), and is monotone: `s1 ≤ s2` never gives `s1` a better band
than `s2`. -/
theorem grade_total_and_monotone :
    (∀ s : ℚ, assign_grade s =
      (if s ≥ 9/10 then "A+"
       else if s ≥ 8/10 then "A"
       else if s ≥ 7/10 then "B+"
       else if s ≥ 6/10 then "B"
       else if s ≥ 4/10 then "C"
       else "D"))
    ∧ (∀ s : ℚ, 0 ≤ s → s ≤ 1 →
        assign_grade s ∈ (["A+", "A", "B+", "B", "C", "D"] : List String))
    ∧ (∀ s1 s2 : ℚ, 0 ≤ s1 → s1 ≤ s2 → s2 ≤ 1 →
        gradeRank (assign_grade s1) ≤ gradeRank (assign_grade s2)) := by
  refine ⟨assign_grade_eval, fun s h0 h1 => ?_, fun s1 s2 h0 h12 h1 => ?_⟩
  · rw [assign_grade_eval]
    split_ifs <;> simp
  · rw [assign_grade_eval, assign_grade_eval]
    split_ifs <;> simp [gradeRank] <;> linarith

theorem grade_total_and_monotone_witness :
    assign_grade (1/2) ∈ (["A+", "A", "B+", "B", "C", "D"] : List String)
    ∧ gradeRank (assign_grade (1/2)) ≤ gradeRank (assign_grade (3/4)) :=
  ⟨grade_total_and_monotone.2.1 (1/2) (by norm_num) (by norm_num),
   grade_total_and_monotone.2.2 (1/2) (3/4) (by norm_num) (by norm_num) (by norm_num)⟩

/-! ### C4 -/

/-- Pointwise relation between two component-score dicts that agree on every
entry except the `llm_penalty` one, where the second value is at least the
first. -/
def PenaltyBump (p q : String × ℚ) : Prop :=
  p.1 = q.1 ∧ (p.1 ≠ "llm_penalty" → p.2 = q.2) ∧ (p.1 = "llm_penalty" → p.2 ≤ q.2)

theorem weighted_sum_antitone (cs1 cs2 : List (String × ℚ))
    (h : List.Forall₂ PenaltyBump cs1 cs2) :
    ((calculate_weighted_scores cs2).map (fun p => p.2)).sum
      ≤ ((calculate_weighted_scores cs1).map (fun p => p.2)).sum := by
  rw [calculate_weighted_scores_eq_map, calculate_weighted_scores_eq_map]
  induction h with
  | nil => exact le_refl 0
  | @cons p q cs1t cs2t hpq htail ih =>
      obtain ⟨hk, hother, hpen⟩ := hpq
      simp only [List.map_cons, List.map_map, List.sum_cons]
      simp only [List.map_map] at ih
      by_cases hp : p.1 = "llm_penalty"
      · have hq : q.1 = "llm_penalty" := hk ▸ hp
        rw [hp, hq, weightsGet_llm_penalty]
        have : q.2 * (-3/20) ≤ p.2 * (-3/20) :=
          mul_le_mul_of_nonpos_right (hpen hp) (by norm_num)
        exact add_le_add this ih
      · rw [← hk, hother hp]
        exact add_le_add (le_refl _) ih

/-- C4: for every pair of component-score sets that agree on all components
except `llm_penalty`, where the second has a larger penalty raw score, the
normalized score computed from the second is at most the one computed from
the first. -/
theorem penalty_never_increases_normalized (cs1 cs2 : List (String × ℚ))
    (h : List.Forall₂ PenaltyBump cs1 cs2) :
    max 0 (min ((calculate_weighted_scores cs2).map (fun p => p.2)).sum 1)
      ≤ max 0 (min ((calculate_weighted_scores cs1).map (fun p => p.2)).sum 1) :=
  max_le_max (le_refl 0) (min_le_min (weighted_sum_antitone cs1 cs2 h) (le_refl 1))

theorem penalty_never_increases_normalized_witness :
    max 0 (min ((calculate_weighted_scores [("llm_penalty", (1:ℚ)/2)]).map (fun p => p.2)).sum 1)
      ≤ max 0 (min ((calculate_weighted_scores [("llm_penalty", (1:ℚ)/4)]).map
          (fun p => p.2)).sum 1) :=
  penalty_never_increases_normalized _ _
    (List.Forall₂.cons
      ⟨rfl, fun hne => absurd rfl hne, fun _ => by norm_num⟩ List.Forall₂.nil)

/-! ### C5 -/

/-- C5 counterexample: a misbehaving entry for one component (a truthy
non-numeric `ps_similarity` value, on which `float(...)` raises) does NOT
leave the other components' extracted values intact: `feasibility` extracts
to `0.8` on its own, but drops to `0.0` once the bad `ps_similarity` entry is
present, because the single `try/except` resets the whole component set. -/
theorem extraction_resets_all_counterexample :
    listGetD (extract_component_scores [("feasibility", RawValue.num (4/5))]) "feasibility" 0
      = 4/5
    ∧ listGetD (extract_component_scores
        [("ps_similarity", RawValue.truthyOther), ("feasibility", RawValue.num (4/5))])
        "feasibility" 0 = 0 := by
  constructor
  · simp [extract_component_scores, extractAttempts, extractValue, extractPenalty,
      dictGetD, listGetD, defaultComponentScores]
    norm_num [max_def, min_def]
  · simp [extract_component_scores, extractAttempts, extractValue, extractPenalty,
      dictGetD, listGetD, defaultComponentScores]

/-- C5 (amended): score extraction never raises and always yields the six
fixed components with values in `[0, 1]`; but an internal error while
extracting any one component resets the ENTIRE component set to the all-zero
defaults (the other components do not keep their extracted values). -/
theorem extraction_error_resets_all (results : PyDict) :
    ((extract_component_scores results).map (fun p => p.1)
        = ["ps_similarity", "feasibility", "attractiveness", "image_analysis",
           "link_analysis", "llm_penalty"])
    ∧ (∀ p ∈ extract_component_scores results, 0 ≤ p.2 ∧ p.2 ≤ 1)
    ∧ ((extractAttempts results).all (fun p => p.2.isSome) = false →
        extract_component_scores results = defaultComponentScores) := by
  unfold extract_component_scores
  split_ifs with h
  · refine ⟨rfl, ?_, fun hfalse => by simp [h] at hfalse⟩
    intro p hp
    simp only [extractAttempts, List.map_cons, List.map_nil, List.mem_cons,
      List.not_mem_nil, or_false] at hp
    rcases hp with rfl | rfl | rfl | rfl | rfl | rfl <;>
      exact ⟨le_max_left _ _, max_le (by norm_num) (min_le_right _ _)⟩
  · refine ⟨rfl, ?_, fun _ => rfl⟩
    intro p hp
    simp only [defaultComponentScores, List.mem_cons, List.not_mem_nil, or_false] at hp
    rcases hp with rfl | rfl | rfl | rfl | rfl | rfl <;> exact ⟨le_refl 0, by norm_num⟩

theorem extraction_error_resets_all_witness :
    (∀ p ∈ extract_component_scores
        [("ps_similarity", RawValue.truthyOther)], 0 ≤ p.2 ∧ p.2 ≤ 1)
    ∧ extract_component_scores [("ps_similarity", RawValue.truthyOther)]
        = defaultComponentScores :=
  ⟨(extraction_error_resets_all _).2.1,
   (extraction_error_resets_all _).2.2 (by
      simp [extractAttempts, extractValue, dictGetD])⟩

/-! ### C6 -/

/-- C6 counterexample: a bare number `0.9` stored under `llm_detection` does
NOT become the `llm_penalty` component score: the non-dict branch for this
component hardcodes `0.0`, so the extracted `llm_penalty` is `0`, not `0.9`
as the claim requires. -/
theorem llm_bare_number_counterexample :
    listGetD (extract_component_scores [("llm_detection", RawValue.num (9/10))])
        "llm_penalty" 0 = 0
    ∧ listGetD (extract_component_scores [("llm_detection", RawValue.num (9/10))])
        "llm_penalty" 0 ≠ 9/10 := by
  have h : listGetD (extract_component_scores [("llm_detection", RawValue.num (9/10))])
      "llm_penalty" 0 = 0 := by
    simp [extract_component_scores, extractAttempts, extractValue, extractPenalty,
      dictGetD, listGetD, defaultComponentScores]
  exact ⟨h, by rw [h]; norm_num⟩

/-- C6 (amended): for each of the five non-penalty components a bare numeric
raw value is used directly as the component score (clamped to `[0, 1]`);
for the penalty component, however, any non-dict value stored under
`llm_detection` — including a bare number — yields `llm_penalty = 0.0`. -/
theorem bare_number_extraction (x : ℚ) :
    listGetD (extract_component_scores [("ps_similarity", RawValue.num x)])
        "ps_similarity" 0 = max 0 (min x 1)
    ∧ listGetD (extract_component_scores [("feasibility", RawValue.num x)])
        "feasibility" 0 = max 0 (min x 1)
    ∧ listGetD (extract_component_scores [("attractiveness", RawValue.num x)])
        "attractiveness" 0 = max 0 (min x 1)
    ∧ listGetD (extract_component_scores [("image_analysis", RawValue.num x)])
        "image_analysis" 0 = max 0 (min x 1)
    ∧ listGetD (extract_component_scores [("link_analysis", RawValue.num x)])
        "link_analysis" 0 = max 0 (min x 1)
    ∧ (∀ v : RawValue, v.isDict = false →
        listGetD (extract_component_scores [("llm_detection", v)]) "llm_penalty" 0 = 0) := by
  refine ⟨?_, ?_, ?_, ?_, ?_, fun v hv => ?_⟩
  · simp [extract_component_scores, extractAttempts, extractValue, extractPenalty,
      dictGetD, listGetD]
  · simp [extract_component_scores, extractAttempts, extractValue, extractPenalty,
      dictGetD, listGetD]
  · simp [extract_component_scores, extractAttempts, extractValue, extractPenalty,
      dictGetD, listGetD]
  · simp [extract_component_scores, extractAttempts, extractValue, extractPenalty,
      dictGetD, listGetD]
  · simp [extract_component_scores, extractAttempts, extractValue, extractPenalty,
      dictGetD, listGetD]
  · cases v <;> simp_all [extract_component_scores, extractAttempts, extractValue,
      extractPenalty, RawValue.isDict, dictGetD, listGetD]

theorem bare_number_extraction_witness :
    listGetD (extract_component_scores [("llm_detection", RawValue.num (9/10))])
        "llm_penalty" 0 = 0 :=
  (bare_number_extraction 0).2.2.2.2.2 (RawValue.num (9/10)) rfl

/-! ### C7 -/

/-- Association between each component of the score set and the key of the
raw evaluation-results mapping it is read from (`llm_penalty` comes from the
`llm_detection` key; every other component from the key of its own name). -/
def compSources : List (String × String) :=
  [("ps_similarity", "ps_similarity"),
   ("feasibility", "feasibility"),
   ("attractiveness", "attractiveness"),
   ("image_analysis", "image_analysis"),
   ("link_analysis", "link_analysis"),
   ("llm_penalty", "llm_detection")]

theorem find?_eq_none_of_absent (d : PyDict) (k : String)
    (h : d.all (fun p => p.1 != k) = true) : d.find? (fun p => p.1 == k) = none := by
  apply List.find?_eq_none.mpr
  intro p hp
  have := List.all_eq_true.mp h p hp
  simpa using this

/-- C7: `calculate_final_score` is total (never raises in the modelled
domain) and returns a complete record whose component set always carries the
six fixed components; any component whose source key is missing from the
input is scored `0.0`; and whenever every component defaults to `0.0` the
record has `normalized_score = 0` and grade `"D"`. -/
theorem default_safety (results : PyDict) :
    ((calculate_final_score results).component_scores.map (fun p => p.1)
        = ["ps_similarity", "feasibility", "attractiveness", "image_analysis",
           "link_analysis", "llm_penalty"])
    ∧ (∀ cp ∈ compSources, results.all (fun p => p.1 != cp.2) = true →
        listGetD (calculate_final_score results).component_scores cp.1 0 = 0)
    ∧ ((∀ p ∈ (calculate_final_score results).component_scores, p.2 = 0) →
        (calculate_final_score results).normalized_score = 0
          ∧ (calculate_final_score results).grade = "D") := by
  have hkeys : (extract_component_scores results).map (fun p => p.1)
      = ["ps_similarity", "feasibility", "attractiveness", "image_analysis",
         "link_analysis", "llm_penalty"] := by
    unfold extract_component_scores
    split_ifs <;> rfl
  refine ⟨hkeys, fun cp hcp habsent => ?_, fun hzero => ?_⟩
  · have hfind := find?_eq_none_of_absent results cp.2 habsent
    show listGetD (extract_component_scores results) cp.1 0 = 0
    unfold extract_component_scores
    split_ifs with h
    · simp only [compSources, List.mem_cons, List.not_mem_nil, or_false] at hcp
      rcases hcp with rfl | rfl | rfl | rfl | rfl | rfl <;>
        simp [extractAttempts, extractValue, extractPenalty, hfind, listGetD, dictGetD]
    · simp only [compSources, List.mem_cons, List.not_mem_nil, or_false] at hcp
      rcases hcp with rfl | rfl | rfl | rfl | rfl | rfl <;>
        simp [defaultComponentScores, listGetD]
  · have htot : (calculate_final_score results).total_score = 0 := by
      show ((calculate_weighted_scores (extract_component_scores results)).map
          (fun p => p.2)).sum = 0
      apply List.sum_eq_zero
      intro x hx
      rw [calculate_weighted_scores_eq_map] at hx
      simp only [List.map_map, List.mem_map] at hx
      obtain ⟨p, hp, rfl⟩ := hx
      have := hzero p hp
      simp [Function.comp, this]
    have hnorm : (calculate_final_score results).normalized_score = 0 := by
      have : (calculate_final_score results).normalized_score
          = max 0 (min (calculate_final_score results).total_score 1) := rfl
      rw [this, htot]
      norm_num [max_def, min_def]
    refine ⟨hnorm, ?_⟩
    have hgr : (calculate_final_score results).grade
        = assign_grade (calculate_final_score results).normalized_score := rfl
    rw [hgr, hnorm, assign_grade_eval]
    norm_num

theorem default_safety_witness :
    listGetD (calculate_final_score []).component_scores "ps_similarity" 0 = 0
    ∧ (calculate_final_score []).normalized_score = 0
    ∧ (calculate_final_score []).grade = "D" := by
  refine ⟨(default_safety []).2.1 ("ps_similarity", "ps_similarity") (by simp [compSources])
      rfl, ?_, ?_⟩
  · exact ((default_safety []).2.2 (by
      intro p hp
      simp [calculate_final_score, extract_component_scores, extractAttempts,
        extractValue, extractPenalty, dictGetD] at hp
      rcases hp with rfl | rfl | rfl | rfl | rfl | rfl <;> rfl)).1
  · exact ((default_safety []).2.2 (by
      intro p hp
      simp [calculate_final_score, extract_component_scores, extractAttempts,
        extractValue, extractPenalty, dictGetD] at hp
      rcases hp with rfl | rfl | rfl | rfl | rfl | rfl <;> rfl)).2

/-! ### C8 -/

theorem listGetD_cons_self (k : String) (v : ℚ) (rest : List (String × ℚ)) (d : ℚ) :
    listGetD ((k, v) :: rest) k d = v := by
  simp [listGetD, List.find?_cons_of_pos]

theorem listGetD_cons_ne (k1 : String) (v : ℚ) (rest : List (String × ℚ)) (k : String)
    (d : ℚ) (h : k1 ≠ k) : listGetD ((k1, v) :: rest) k d = listGetD rest k d := by
  simp only [listGetD]
  rw [List.find?_cons_of_neg _ (by simp [h])]

theorem sum_abs_lookup_gen (f : String → ℚ) (cs : List (String × ℚ))
    (hnd : (cs.map (fun p => p.1)).Nodup) :
    (cs.map (fun p => |listGetD (cs.map (fun q => (q.1, q.2 * f q.1))) p.1 0|)).sum
      = ((cs.map (fun q => (q.1, q.2 * f q.1))).map (fun q => |q.2|)).sum := by
  induction cs with
  | nil => simp
  | cons p rest ih =>
      simp only [List.map_cons, List.nodup_cons] at hnd
      obtain ⟨hnotin, hnd2⟩ := hnd
      simp only [List.map_cons, List.sum_cons]
      rw [listGetD_cons_self]
      congr 1
      have hcongr : ∀ q ∈ rest,
          |listGetD ((p.1, p.2 * f p.1) :: rest.map (fun q2 => (q2.1, q2.2 * f q2.1))) q.1 0|
            = |listGetD (rest.map (fun q2 => (q2.1, q2.2 * f q2.1))) q.1 0| := by
        intro q hq
        have hne : p.1 ≠ q.1 := by
          intro heq
          exact hnotin (heq ▸ List.mem_map_of_mem (fun r => r.1) hq)
        rw [listGetD_cons_ne _ _ _ _ _ hne]
      rw [List.map_congr_left hcongr, ih hnd2]

theorem sum_map_div_mul (l : List ℚ) (S : ℚ) :
    (l.map (fun a => a / S * 100)).sum = l.sum / S * 100 := by
  induction l with
  | nil => simp
  | cons a l ih =>
      simp only [List.map_cons, List.sum_cons, ih]
      ring

theorem sum_abs_pos_of_mem (ws : List (String × ℚ)) (q : String × ℚ) (hq : q ∈ ws)
    (hne : q.2 ≠ 0) : 0 < (ws.map (fun p => |p.2|)).sum := by
  have hx : |q.2| ∈ ws.map (fun p => |p.2|) := List.mem_map_of_mem _ hq
  have h0 : ∀ x ∈ ws.map (fun p => |p.2|), (0:ℚ) ≤ x := by
    intro x hxm
    obtain ⟨r, _, rfl⟩ := List.mem_map.mp hxm
    exact abs_nonneg _
  have hle : |q.2| ≤ (ws.map (fun p => |p.2|)).sum := List.single_le_sum h0 _ hx
  exact lt_of_lt_of_le (abs_pos.mpr hne) hle

/-- C8: in the score breakdown over the weighted scores of a component set
(with distinct component names, as in a Python dict), each contribution is
`|weighted| / Σ|weighted| * 100` (0 when the denominator is 0),
`penalty_applied` is the absolute value of the penalty's weighted score, and
when at least one weighted score is nonzero the contributions sum to exactly
100. -/
theorem breakdown_contributions (cs : List (String × ℚ))
    (hnd : (cs.map (fun p => p.1)).Nodup) :
    (∀ e ∈ (create_score_breakdown cs (calculate_weighted_scores cs)).components,
        e.2.contribution =
          if ((calculate_weighted_scores cs).map (fun p => |p.2|)).sum > 0 then
            |listGetD (calculate_weighted_scores cs) e.1 0|
              / ((calculate_weighted_scores cs).map (fun p => |p.2|)).sum * 100
          else 0)
    ∧ (create_score_breakdown cs (calculate_weighted_scores cs)).penalty_applied
        = |listGetD (calculate_weighted_scores cs) "llm_penalty" 0|
    ∧ ((∃ q ∈ calculate_weighted_scores cs, q.2 ≠ 0) →
        ((create_score_breakdown cs (calculate_weighted_scores cs)).components.map
            (fun e => e.2.contribution)).sum = 100) := by
  refine ⟨?_, rfl, fun hex => ?_⟩
  · intro e he
    simp only [create_score_breakdown, List.mem_map] at he
    obtain ⟨p, hp, rfl⟩ := he
    rfl
  · obtain ⟨q, hq, hqne⟩ := hex
    have hSpos : 0 < ((calculate_weighted_scores cs).map (fun p => |p.2|)).sum :=
      sum_abs_pos_of_mem _ q hq hqne
    have hmap : ((create_score_breakdown cs (calculate_weighted_scores cs)).components.map
        (fun e => e.2.contribution))
        = cs.map (fun p => |listGetD (calculate_weighted_scores cs) p.1 0|
            / ((calculate_weighted_scores cs).map (fun p => |p.2|)).sum * 100) := by
      simp only [create_score_breakdown, List.map_map]
      apply List.map_congr_left
      intro p hp
      show (if ((calculate_weighted_scores cs).map (fun p => |p.2|)).sum > 0 then
          |listGetD (calculate_weighted_scores cs) p.1 0|
            / ((calculate_weighted_scores cs).map (fun p => |p.2|)).sum * 100
        else 0) = _
      rw [if_pos hSpos]
    rw [hmap]
    rw [show (fun p : String × ℚ => |listGetD (calculate_weighted_scores cs) p.1 0|
          / ((calculate_weighted_scores cs).map (fun p => |p.2|)).sum * 100)
        = (fun a : ℚ => a / ((calculate_weighted_scores cs).map (fun p => |p.2|)).sum * 100)
          ∘ (fun p : String × ℚ => |listGetD (calculate_weighted_scores cs) p.1 0|) from rfl]
    rw [← List.map_map, sum_map_div_mul]
    rw [calculate_weighted_scores_eq_map] at hSpos ⊢
    rw [sum_abs_lookup_gen _ cs hnd]
    rw [div_self (ne_of_gt hSpos), one_mul]

theorem breakdown_contributions_witness :
    (([("ps_similarity", (1:ℚ))].map (fun p => p.1)).Nodup)
    ∧ ((create_score_breakdown [("ps_similarity", (1:ℚ))]
          (calculate_weighted_scores [("ps_similarity", (1:ℚ))])).components.map
        (fun e => e.2.contribution)).sum = 100 :=
  ⟨by simp, (breakdown_contributions [("ps_similarity", 1)] (by simp)).2.2
    ⟨("ps_similarity", 1 * weightsGet SCORING_WEIGHTS "ps_similarity"), by
      rw [calculate_weighted_scores_eq_map]
      simp, by
      rw [weightsGet_ps_similarity]
      norm_num⟩⟩

/-! ### C9 and C10 infrastructure -/

/-- Test-harness embedding of a final-score record as stored inside a
presentation dict: the two fields `_calculate_ranking_score` reads, with all
five ranking factors given as numbers. -/
def mkFinalScoreVal (base f1 f2 f3 f4 f5 : ℚ) : RawValue :=
  .dict [("normalized_score", .num base),
         ("ranking_factors", .dict
           [("innovation_score", .num f1),
            ("technical_depth", .num f2),
            ("implementation_readiness", .num f3),
            ("presentation_quality", .num f4),
            ("solution_completeness", .num f5)])]

theorem calculate_ranking_score_formula (base f1 f2 f3 f4 f5 : ℚ) :
    calculate_ranking_score [("final_score", mkFinalScoreVal base f1 f2 f3 f4 f5)]
      = min (base * (7/10)
          + (f1 * (1/4) + f2 * (1/4) + f3 * (1/5) + f4 * (3/20) + f5 * (3/20)) * (3/10)) 1 := by
  unfold calculate_ranking_score mkFinalScoreVal
  simp [dictGetD, RANKING_WEIGHTS, asNumQ, List.mapM.loop]
  ring_nf

/-- Removal of every entry with the given key (used to compare dicts up to
the fields the ranking pass writes). -/
def stripKey (d : PyDict) (k : String) : PyDict :=
  d.filter (fun p => !(p.1 == k))

theorem stripKey_dictSet (d : PyDict) (k : String) (v : RawValue) :
    stripKey (dictSet d k v) k = stripKey d k := by
  induction d with
  | nil => simp [dictSet, stripKey]
  | cons p ps ih =>
      by_cases h : p.1 = k
      · rw [dictSet_cons_of_eq p ps k v h]
        simp [stripKey, h]
      · rw [dictSet_cons_of_ne p ps k v h]
        simp only [stripKey, List.filter_cons]
        rw [show ((!(p.1 == k)) = true) by simp [h]]
        simp only [if_true]
        have := ih
        simp only [stripKey] at this
        rw [this]

theorem find?_stripKey_ne (d : PyDict) (k k2 : String) (h : k2 ≠ k) :
    (stripKey d k).find? (fun p => p.1 == k2) = d.find? (fun p => p.1 == k2) := by
  induction d with
  | nil => simp [stripKey]
  | cons p ps ih =>
      by_cases hk : p.1 = k
      · have : stripKey (p :: ps) k = stripKey ps k := by simp [stripKey, hk]
        rw [this, ih, List.find?_cons_of_neg _ (by simp [hk, Ne.symm h])]
      · have : stripKey (p :: ps) k = p :: stripKey ps k := by simp [stripKey, hk]
        rw [this]
        by_cases h2 : p.1 = k2
        · rw [List.find?_cons_of_pos _ (by simp [h2]), List.find?_cons_of_pos _ (by simp [h2])]
        · rw [List.find?_cons_of_neg _ (by simp [h2]), List.find?_cons_of_neg _ (by simp [h2]),
            ih]

theorem rankKey_stripKey_rank (q : PyDict) : rankKey (stripKey q "rank") = rankKey q := by
  simp [rankKey, dictGetD, find?_stripKey_ne q "rank" "ranking_score" (by decide)]

theorem filter_rankKey_orderedInsert (a : PyDict) (l : List PyDict) (k : ℚ) :
    (List.orderedInsert rankLe a l).filter (fun q => decide (rankKey q = k))
      = if rankKey a = k then a :: l.filter (fun q => decide (rankKey q = k))
        else l.filter (fun q => decide (rankKey q = k)) := by
  induction l with
  | nil =>
      simp only [List.orderedInsert, List.filter]
      by_cases h : rankKey a = k <;> simp [h]
  | cons b bs ih =>
      simp only [List.orderedInsert]
      by_cases hle : rankLe a b
      · rw [if_pos hle]
        by_cases ha : rankKey a = k <;> simp [List.filter, ha]
      · rw [if_neg hle]
        have hlt : rankKey a < rankKey b := lt_of_not_le hle
        have hbne : rankKey b = k → rankKey a ≠ k := by
          intro hb ha
          rw [hb] at hlt
          rw [ha] at hlt
          exact lt_irrefl k hlt
        by_cases hb : rankKey b = k
        · have ha : rankKey a ≠ k := hbne hb
          simp [List.filter, hb, ih, ha]
        · simp [List.filter, hb, ih]

theorem filter_rankKey_insertionSort (l : List PyDict) (k : ℚ) :
    (List.insertionSort rankLe l).filter (fun q => decide (rankKey q = k))
      = l.filter (fun q => decide (rankKey q = k)) := by
  induction l with
  | nil => rfl
  | cons a l ih =>
      simp only [List.insertionSort]
      rw [filter_rankKey_orderedInsert, ih]
      by_cases h : rankKey a = k <;> simp [List.filter, h]

theorem filter_map_strip (l : List PyDict) (k : ℚ) :
    (l.map (fun q => stripKey q "rank")).filter (fun q => decide (rankKey q = k))
      = (l.filter (fun q => decide (rankKey q = k))).map (fun q => stripKey q "rank") := by
  induction l with
  | nil => rfl
  | cons a l ih =>
      simp only [List.map_cons, List.filter]
      rw [show (decide (rankKey (stripKey a "rank") = k)) = decide (rankKey a = k) by
        rw [rankKey_stripKey_rank]]
      by_cases h : rankKey a = k <;> simp [h, ih]

theorem map_stripKey_addRanks (i : ℕ) (l : List PyDict) :
    (addRanks i l).map (fun q => stripKey q "rank") = l.map (fun q => stripKey q "rank") := by
  induction l generalizing i with
  | nil => rfl
  | cons q qs ih => simp [addRanks, stripKey_dictSet, ih]

theorem sorted_addRanks (i : ℕ) (l : List PyDict) (h : List.Sorted rankLe l) :
    List.Sorted rankLe (addRanks i l) := by
  have h1 : (l.map rankKey).Pairwise (fun x y : ℚ => y ≤ x) := by
    rw [List.pairwise_map]
    exact h
  rw [← addRanks_map_rankKey i] at h1
  rw [List.pairwise_map] at h1
  exact h1

/-- Shape of every record returned by `rank_presentations`: an input record
with its computed `ranking_score` stored and some `rank` stored on top. -/
theorem mem_rank_presentations (ps : List PyDict) (q : PyDict)
    (hq : q ∈ rank_presentations ps) :
    ∃ p ∈ ps, ∃ r : RawValue,
      q = dictSet (dictSet p "ranking_score" (.num (calculate_ranking_score p))) "rank" r := by
  unfold rank_presentations at hq
  obtain ⟨q2, hq2, r, rfl⟩ := mem_addRanks _ _ _ hq
  rw [List.mem_insertionSort] at hq2
  obtain ⟨p, hp, rfl⟩ := List.mem_map.mp hq2
  exact ⟨p, hp, r, rfl⟩

theorem calculate_ranking_score_congr (p q : PyDict)
    (h : dictGetD p "final_score" (.dict []) = dictGetD q "final_score" (.dict [])) :
    calculate_ranking_score p = calculate_ranking_score q := by
  unfold calculate_ranking_score
  rw [h]

theorem rescore_fixes_ranked (ps : List PyDict) (q : PyDict)
    (hq : q ∈ rank_presentations ps) :
    dictSet q "ranking_score" (.num (calculate_ranking_score q)) = q := by
  obtain ⟨p, hp, r, rfl⟩ := mem_rank_presentations ps q hq
  have hfs : calculate_ranking_score
      (dictSet (dictSet p "ranking_score" (.num (calculate_ranking_score p))) "rank" r)
      = calculate_ranking_score p := by
    apply calculate_ranking_score_congr
    rw [dictGetD_dictSet_ne _ _ _ _ _ (by decide),
      dictGetD_dictSet_ne _ _ _ _ _ (by decide)]
  rw [hfs]
  apply dictSet_eq_self
  rw [find?_dictSet_ne _ _ _ _ (by decide), find?_dictSet_self]

theorem rank_presentations_idem (ps : List PyDict) :
    rank_presentations (rank_presentations ps) = rank_presentations ps := by
  have hA : (rank_presentations ps).map
      (fun q => dictSet q "ranking_score" (.num (calculate_ranking_score q)))
      = rank_presentations ps := by
    rw [List.map_congr_left (g := id) (fun q hq => rescore_fixes_ranked ps q hq), List.map_id]
  have hsorted : List.Sorted rankLe (rank_presentations ps) := by
    unfold rank_presentations
    exact sorted_addRanks 0 _ (List.sorted_insertionSort rankLe _)
  have hlast : addRanks 0 (rank_presentations ps) = rank_presentations ps := by
    unfold rank_presentations
    exact addRanks_addRanks 0 _
  have hstep : rank_presentations (rank_presentations ps)
      = addRanks 0 (List.insertionSort rankLe ((rank_presentations ps).map
          (fun p => dictSet p "ranking_score" (.num (calculate_ranking_score p))))) := rfl
  rw [hstep, hA, hsorted.insertionSort_eq, hlast]

/-! ### C9 -/

/-- C9 counterexample: `_calculate_ranking_score` only caps the combined
score at `1.0` (`min(total, 1.0)`); it does not clamp from below.  A record
with a negative `innovation_score` factor produces the ranking score `-3/4`,
while the claimed clamp to `[0, 1]` would give `0`. -/
theorem ranking_clamp_counterexample :
    calculate_ranking_score [("final_score", mkFinalScoreVal 0 (-10) 0 0 0 0)] = -3/4
    ∧ calculate_ranking_score [("final_score", mkFinalScoreVal 0 (-10) 0 0 0 0)] ≠ 0 := by
  have h : calculate_ranking_score [("final_score", mkFinalScoreVal 0 (-10) 0 0 0 0)]
      = -3/4 := by
    rw [calculate_ranking_score_formula]
    norm_num [min_def]
  exact ⟨h, by rw [h]; norm_num⟩

/-- C9 (amended): `rank_presentations` stores in each record
`ranking_score = normalized_score*0.7 + (Σ ranking_factor*weight)*0.3` with
the fixed sub-weights `{innovation: 0.25, technical_depth: 0.25,
implementation_readiness: 0.2, presentation_quality: 0.15,
solution_completeness: 0.15}`, capped above at `1.0` (scores below 0 are NOT
clamped up to 0); it returns the records sorted descending by that score
with 1-based `rank` equal to position, ties keeping the original (stable)
order; and ranking the same list twice produces identical rank assignments
and ordering. -/
theorem ranking_spec (ps : List PyDict) :
    (∀ base f1 f2 f3 f4 f5 : ℚ,
        calculate_ranking_score [("final_score", mkFinalScoreVal base f1 f2 f3 f4 f5)]
          = min (base * (7/10)
              + (f1 * (1/4) + f2 * (1/4) + f3 * (1/5) + f4 * (3/20) + f5 * (3/20))
                * (3/10)) 1)
    ∧ (rank_presentations ps).length = ps.length
    ∧ (∀ i (hi : i < (rank_presentations ps).length),
        dictGetD ((rank_presentations ps).get ⟨i, hi⟩) "rank" .falsyOther
          = .num ((i : ℚ) + 1))
    ∧ (∀ i j (hi : i < (rank_presentations ps).length)
        (hj : j < (rank_presentations ps).length), i ≤ j →
          rankKey ((rank_presentations ps).get ⟨j, hj⟩)
            ≤ rankKey ((rank_presentations ps).get ⟨i, hi⟩))
    ∧ (∀ k : ℚ,
        ((rank_presentations ps).map (fun q => stripKey q "rank")).filter
            (fun q => decide (rankKey q = k))
          = ((ps.map (fun p => dictSet p "ranking_score"
                (.num (calculate_ranking_score p)))).map
              (fun q => stripKey q "rank")).filter (fun q => decide (rankKey q = k)))
    ∧ rank_presentations (rank_presentations ps) = rank_presentations ps := by
  have hlen : (rank_presentations ps).length
      = (List.insertionSort rankLe (ps.map (fun p =>
          dictSet p "ranking_score" (.num (calculate_ranking_score p))))).length := by
    unfold rank_presentations
    rw [addRanks_length]
  refine ⟨calculate_ranking_score_formula, ?_, ?_, ?_, ?_, rank_presentations_idem ps⟩
  · rw [hlen, List.length_insertionSort, List.length_map]
  · intro i hi
    have hi2 : i < (List.insertionSort rankLe (ps.map (fun p =>
        dictSet p "ranking_score" (.num (calculate_ranking_score p))))).length :=
      hlen ▸ hi
    rw [show (rank_presentations ps).get ⟨i, hi⟩
        = dictSet ((List.insertionSort rankLe (ps.map (fun p =>
            dictSet p "ranking_score" (.num (calculate_ranking_score p))))).get ⟨i, hi2⟩)
          "rank" (.num ((0 : ℕ) + i + 1)) from addRanks_get 0 _ i hi hi2]
    rw [dictGetD_dictSet_self]
    congr 1
    push_cast
    ring
  · intro i j hi hj hij
    have hi2 : i < (List.insertionSort rankLe (ps.map (fun p =>
        dictSet p "ranking_score" (.num (calculate_ranking_score p))))).length :=
      hlen ▸ hi
    have hj2 : j < (List.insertionSort rankLe (ps.map (fun p =>
        dictSet p "ranking_score" (.num (calculate_ranking_score p))))).length :=
      hlen ▸ hj
    rw [show (rank_presentations ps).get ⟨i, hi⟩
        = dictSet ((List.insertionSort rankLe (ps.map (fun p =>
            dictSet p "ranking_score" (.num (calculate_ranking_score p))))).get ⟨i, hi2⟩)
          "rank" (.num ((0 : ℕ) + i + 1)) from addRanks_get 0 _ i hi hi2]
    rw [show (rank_presentations ps).get ⟨j, hj⟩
        = dictSet ((List.insertionSort rankLe (ps.map (fun p =>
            dictSet p "ranking_score" (.num (calculate_ranking_score p))))).get ⟨j, hj2⟩)
          "rank" (.num ((0 : ℕ) + j + 1)) from addRanks_get 0 _ j hj hj2]
    rw [rankKey_dictSet_rank, rankKey_dictSet_rank]
    rcases eq_or_lt_of_le hij with rfl | hlt
    · exact le_refl _
    · have hsorted : List.Sorted rankLe (List.insertionSort rankLe (ps.map (fun p =>
          dictSet p "ranking_score" (.num (calculate_ranking_score p))))) :=
        List.sorted_insertionSort rankLe _
      exact List.pairwise_iff_get.mp hsorted ⟨i, hi2⟩ ⟨j, hj2⟩ hlt
  · intro k
    have h1 : (rank_presentations ps).map (fun q => stripKey q "rank")
        = (List.insertionSort rankLe (ps.map (fun p =>
            dictSet p "ranking_score" (.num (calculate_ranking_score p))))).map
          (fun q => stripKey q "rank") := map_stripKey_addRanks 0 _
    rw [h1, filter_map_strip, filter_rankKey_insertionSort, ← filter_map_strip]

theorem ranking_spec_witness :
    dictGetD ((rank_presentations [[("final_score", RawValue.dict [])]]).get
        ⟨0, by decide⟩) "rank" .falsyOther = .num (((0 : ℕ) : ℚ) + 1) :=
  (ranking_spec [[("final_score", RawValue.dict [])]]).2.2.1 0 (by decide)

/-! ### C10 -/

/-- C10 counterexample: ranking mutates the input records. After
`rank_presentations` runs on a single record that has no `rank` field, the
(aliased) record in the returned list carries a `rank` field that the input
record did not have, so fields ARE added to the records passed in. -/
theorem rank_mutation_counterexample :
    ((rank_presentations [[("final_score", RawValue.dict [])]]).map
        (fun q => hasKey q "rank")) = [true]
    ∧ hasKey [("final_score", RawValue.dict [])] "rank" = false := by
  constructor
  · simp [rank_presentations, addRanks, dictSet, hasKey, List.insertionSort,
      List.orderedInsert]
  · simp [hasKey]

/-- C10 (amended): `rank_presentations` mutates each input record by writing
exactly the two fields `ranking_score` and `rank` (adding them, or
overwriting them when present); every record of the result is an input
record with only those two fields written, so no other field of any input
record is added, removed or changed and no raw score is recomputed. -/
theorem rank_presentations_only_adds_rank_fields (ps : List PyDict) (q : PyDict)
    (hq : q ∈ rank_presentations ps) :
    ∃ p ∈ ps, ∃ v r : RawValue, q = dictSet (dictSet p "ranking_score" v) "rank" r := by
  obtain ⟨p, hp, r, rfl⟩ := mem_rank_presentations ps q hq
  exact ⟨p, hp, _, r, rfl⟩

theorem rank_presentations_only_adds_rank_fields_witness :
    ∃ p ∈ [[("final_score", RawValue.dict [])]], ∃ v r : RawValue,
      (rank_presentations [[("final_score", RawValue.dict [])]]).get ⟨0, by decide⟩
        = dictSet (dictSet p "ranking_score" v) "rank" r :=
  rank_presentations_only_adds_rank_fields _ _ (List.get_mem _ _ _)

end ScoringSystem
